import Mathlib

/-!
Verification of the SlimSynth control firmware and (spec-modelled) host-side
engine pieces.

The repository ships two Arduino sketches:

* `OscilloscopeControl.ino` — the current firmware: joystick X/Y axes plus a
  button, transmitting four comma-separated fields
  `frequency,axisX,axisY,waveform` per line.
* an unnamed legacy sketch — a potentiometer plus a button, transmitting three
  comma-separated fields `frequency,pot,waveform` per line.

Both are embedded below as step functions over explicit state; serial output
is modelled as the exact string the `Serial.print` sequence produces.  The
host-side Python engine (serial parser, frequency smoother, oscillator phase
accumulator) is not among the provided sources, so those parts are modelled
from the specification, and are marked as such.
-/

/-- Arduino's `map` function: `(x - in_min) * (out_max - out_min) /
(in_max - in_min) + out_min`, with C truncating integer division
(`Int.tdiv`). -/
def arduinoMap (x inMin inMax outMin outMax : Int) : Int :=
  ((x - inMin) * (outMax - outMin)).tdiv (inMax - inMin) + outMin

/-- The four-field control line produced by the print sequence
`Serial.print(freq); Serial.print(","); Serial.print(x); Serial.print(",");
Serial.print(y); Serial.print(","); Serial.println(w)` in
`OscilloscopeControl.ino`. -/
def controlLine (f x y w : Int) : String :=
  toString f ++ "," ++ toString x ++ "," ++ toString y ++ "," ++ toString w ++ "\n"

/-- The three-field control line produced by the print sequence of the legacy
sketch: `Serial.print(freq); Serial.print(","); Serial.print(pot);
Serial.print(","); Serial.println(w)`. -/
def potControlLine (f p w : Int) : String :=
  toString f ++ "," ++ toString p ++ "," ++ toString w ++ "\n"

/-- 2^32, the modulus of Arduino's `unsigned long`. -/
def ulModulus : Nat := 4294967296

/-- `unsigned long` subtraction `a - b` (wrap-around modulo 2^32), as used in
`currentTime - lastSendTime`.  Both operands are `millis()` values `< 2^32`. -/
def ulongSub (a b : Nat) : Nat :=
  (a + ulModulus - b) % ulModulus

/-- Global state of `OscilloscopeControl.ino` across `loop` iterations:
`freq`, `waveformType`, `lastJoyButtonState` (`true` = `HIGH`) and
`lastSendTime`. -/
structure OscState where
  freq : Int
  waveformType : Int
  lastJoyButtonState : Bool
  lastSendTime : Nat
deriving Repr, DecidableEq

/-- Environment readings consumed by one `loop` iteration of
`OscilloscopeControl.ino`: the `digitalRead` of the button (`true` = `HIGH`),
the two `analogRead`s inside the button branch, the two `analogRead`s of the
main body, and the `millis()` value. -/
structure OscInput where
  joyButton : Bool
  xBtn : Nat
  yBtn : Nat
  xValue : Nat
  yValue : Nat
  millisNow : Nat
deriving Repr, DecidableEq

/-- Result of one `loop` iteration: the serial lines written, in order, and
the successor state. -/
structure OscOutput where
  lines : List String
  state : OscState
deriving Repr, DecidableEq

/-- Initial state of `OscilloscopeControl.ino`: `freq = 100`,
`waveformType = 0`, `lastJoyButtonState = HIGH`, `lastSendTime = 0`. -/
def oscInit : OscState :=
  { freq := 100, waveformType := 0, lastJoyButtonState := true, lastSendTime := 0 }

/-- One iteration of `loop()` in `OscilloscopeControl.ino`: button falling
edge cycles the waveform modulo 8 and immediately transmits a line; the
periodic branch transmits when at least `sendInterval = 20` ms have elapsed
since `lastSendTime`; afterwards `freq` is advanced by the mapped sweep speed
and wrapped to 100 when it exceeds 2000. -/
def oscLoop (s : OscState) (i : OscInput) : OscOutput :=
  let pressed := i.joyButton = false ∧ s.lastJoyButtonState = true
  let wave1 : Int := if pressed then (s.waveformType + 1).tmod 8 else s.waveformType
  let lines1 : List String :=
    if pressed then [controlLine s.freq (i.xBtn : Int) (i.yBtn : Int) wave1] else []
  let sweepSpeed : Int := arduinoMap (i.xValue : Int) 0 1023 2 100
  let doSend := 20 ≤ ulongSub i.millisNow s.lastSendTime
  let lines2 : List String :=
    if doSend then [controlLine s.freq (i.xValue : Int) (i.yValue : Int) wave1] else []
  let freq1 := s.freq + sweepSpeed
  { lines := lines1 ++ lines2,
    state :=
      { freq := if freq1 > 2000 then 100 else freq1,
        waveformType := wave1,
        lastJoyButtonState := i.joyButton,
        lastSendTime := if doSend then i.millisNow else s.lastSendTime } }

/-- States of `OscilloscopeControl.ino` reachable from the initial state by
any sequence of `loop` iterations under arbitrary inputs. -/
inductive OscReachable : OscState → Prop
  | init : OscReachable oscInit
  | step {s : OscState} (i : OscInput) : OscReachable s → OscReachable (oscLoop s i).state

/-- Timestamps (`millis()` values) at which the periodic transmission branch
fires, along a run of `loop` iterations. -/
def periodicSendTimes : OscState → List OscInput → List Nat
  | _, [] => []
  | s, i :: is =>
    if 20 ≤ ulongSub i.millisNow s.lastSendTime then
      i.millisNow :: periodicSendTimes (oscLoop s i).state is
    else
      periodicSendTimes (oscLoop s i).state is

/-- Global state of the legacy potentiometer sketch across `loop`
iterations. -/
structure PotState where
  freq : Int
  waveformType : Int
  lastButtonState : Bool
  lastSendTime : Nat
deriving Repr, DecidableEq

/-- Environment readings consumed by one `loop` iteration of the legacy
sketch: the button `digitalRead`, the `analogRead` inside the button branch,
the main-body `analogRead`, and the `millis()` value. -/
structure PotInput where
  button : Bool
  potBtn : Nat
  potValue : Nat
  millisNow : Nat
deriving Repr, DecidableEq

/-- Result of one `loop` iteration of the legacy sketch. -/
structure PotOutput where
  lines : List String
  state : PotState
deriving Repr, DecidableEq

/-- Initial state of the legacy sketch. -/
def potInit : PotState :=
  { freq := 100, waveformType := 0, lastButtonState := true, lastSendTime := 0 }

/-- One iteration of `loop()` in the legacy potentiometer sketch; identical
control flow to `oscLoop`, but both transmission paths emit three-field
lines `freq,pot,waveform`. -/
def potLoop (s : PotState) (i : PotInput) : PotOutput :=
  let pressed := i.button = false ∧ s.lastButtonState = true
  let wave1 : Int := if pressed then (s.waveformType + 1).tmod 8 else s.waveformType
  let lines1 : List String :=
    if pressed then [potControlLine s.freq (i.potBtn : Int) wave1] else []
  let sweepSpeed : Int := arduinoMap (i.potValue : Int) 0 1023 2 100
  let doSend := 20 ≤ ulongSub i.millisNow s.lastSendTime
  let lines2 : List String :=
    if doSend then [potControlLine s.freq (i.potValue : Int) wave1] else []
  let freq1 := s.freq + sweepSpeed
  { lines := lines1 ++ lines2,
    state :=
      { freq := if freq1 > 2000 then 100 else freq1,
        waveformType := wave1,
        lastButtonState := i.button,
        lastSendTime := if doSend then i.millisNow else s.lastSendTime } }

/-- A string usable as a single field of a comma-separated line: nonempty
and free of the separator characters. -/
def sepFreeField (f : String) : Prop :=
  f ≠ "" ∧ ∀ c ∈ f.data, c ≠ ',' ∧ c ≠ '\n'

/-- The string is an ASCII comma-separated line of exactly four fields
terminated by a newline. -/
def isFourFieldLine (l : String) : Prop :=
  ∃ f x y w : String,
    l = f ++ "," ++ x ++ "," ++ y ++ "," ++ w ++ "\n" ∧
    sepFreeField f ∧ sepFreeField x ∧ sepFreeField y ∧ sepFreeField w

/-- The string is an ASCII comma-separated line of exactly three fields
terminated by a newline. -/
def isThreeFieldLine (l : String) : Prop :=
  ∃ f p w : String,
    l = f ++ "," ++ p ++ "," ++ w ++ "\n" ∧
    sepFreeField f ∧ sepFreeField p ∧ sepFreeField w

/-- Snapshot of the control parameters the host engine keeps per §3 of the
specification. -/
structure ControlState where
  frequency : Int
  axisX : Int
  axisY : Int
  waveform : Int
deriving Repr, DecidableEq

/-- Split a character list at commas; `n` commas yield `n + 1` fields. -/
def splitFields : List Char → List (List Char)
  | [] => [[]]
  | c :: cs =>
    if c = ',' then [] :: splitFields cs
    else
      match splitFields cs with
      | f :: fs => (c :: f) :: fs
      | [] => [[c]]

/-- Accumulate the decimal value of a digit run; any non-digit character
makes the run invalid. -/
def parseNatCore : List Char → Nat → Option Nat
  | [], acc => some acc
  | c :: cs, acc =>
    if c.isDigit then parseNatCore cs (acc * 10 + (c.toNat - 48)) else none

/-- Parse an optionally-signed decimal integer field; empty or non-numeric
fields are invalid. -/
def parseIntField : List Char → Option Int
  | [] => none
  | '-' :: rest =>
    match rest with
    | [] => none
    | _ => (parseNatCore rest 0).map (fun n => -(n : Int))
  | cs => (parseNatCore cs 0).map (fun n => (n : Int))

/-- Modelled from the spec: the serial-line parser of the host engine
(`slimsynth.py` is not among the provided sources).  Per §6, the core parses
the ASCII line `frequency,axisX,axisY,waveform\n` and ignores malformed
lines: the trailing newline is stripped, the rest is split at commas, and
the line is valid exactly when it yields four integer fields. -/
def parseControlLine (line : String) : Option ControlState :=
  let cs := line.data
  let stripped := if cs.getLast? = some '\n' then cs.dropLast else cs
  match (splitFields stripped).map parseIntField with
  | [some f, some x, some y, some w] => some ⟨f, x, y, w⟩
  | _ => none

/-- Modelled from the spec: applying one received line to the engine state —
a valid line replaces the state, a malformed line leaves it unchanged
(§7: "Malformed control input: discarded, state unchanged, not surfaced as
an error"). -/
def applyControlLine (st : ControlState) (line : String) : ControlState :=
  match parseControlLine line with
  | some st' => st'
  | none => st

/-- Modelled from the spec: one step of the frequency smoother,
`current = current * 0.95 + target * 0.05` (§4.1 and README), over exact
rationals. -/
def smoothStep (target current : ℚ) : ℚ :=
  current * (95 / 100) + target * (5 / 100)

/-- Modelled from the spec: the smoother applied once per sample for `n`
samples. -/
def smoothIter (target : ℚ) : Nat → ℚ → ℚ
  | 0, current => current
  | n + 1, current => smoothIter target n (smoothStep target current)

/-- Modelled from the spec: one per-sample step of the oscillator's phase
accumulator — advance by `frequency / sampleRate` (sample rate 44100 Hz) and
re-wrap into the canonical domain `[0,1)` (§3, §4.2). -/
def phaseStep (f phase : ℚ) : ℚ :=
  Int.fract (phase + f / 44100)

/-- Modelled from the spec: the phase accumulator advanced for `n`
samples. -/
def phaseIter (f : ℚ) : Nat → ℚ → ℚ
  | 0, p => p
  | n + 1, p => phaseIter f n (phaseStep f p)

/-- Every decimal digit character produced by `Nat.digitChar` below base 10 is a digit. -/
theorem digitChar_isDigit : ∀ m : Nat, m < 10 → (Nat.digitChar m).isDigit = true := by decide

/-- All characters accumulated by `Nat.toDigitsCore` at base 10 are decimal digits. -/
theorem toDigitsCore_isDigit (fuel : Nat) :
    ∀ (n : Nat) (acc : List Char), (∀ c ∈ acc, c.isDigit = true) →
      ∀ c ∈ Nat.toDigitsCore 10 fuel n acc, c.isDigit = true := by
  induction fuel with
  | zero =>
    intro n acc hacc c hc
    rw [Nat.toDigitsCore] at hc
    exact hacc c hc
  | succ f ih =>
    intro n acc hacc c hc
    rw [Nat.toDigitsCore] at hc
    have hd : (Nat.digitChar (n % 10)).isDigit = true :=
      digitChar_isDigit _ (Nat.mod_lt _ (by omega))
    by_cases h10 : n / 10 = 0
    · simp only [h10, if_true] at hc
      rcases List.mem_cons.mp hc with hc | hc
      · exact hc ▸ hd
      · exact hacc c hc
    · simp only [h10, if_false] at hc
      refine ih (n / 10) _ ?_ c hc
      intro d hd2
      rcases List.mem_cons.mp hd2 with hd2 | hd2
      · exact hd2 ▸ hd
      · exact hacc d hd2

/-- Every character of the decimal rendering of a natural number is a digit. -/
theorem natRepr_isDigit (n : Nat) : ∀ c ∈ (Nat.repr n).data, c.isDigit = true := by
  intro c hc
  have : (Nat.repr n).data = Nat.toDigitsCore 10 (n + 1) n [] := rfl
  rw [this] at hc
  exact toDigitsCore_isDigit (n + 1) n [] (by simp) c hc

/-- `Nat.toDigitsCore` never shrinks its accumulator. -/
theorem toDigitsCore_length (fuel : Nat) :
    ∀ (n : Nat) (acc : List Char), acc.length ≤ (Nat.toDigitsCore 10 fuel n acc).length := by
  induction fuel with
  | zero => intro n acc; rw [Nat.toDigitsCore]
  | succ f ih =>
    intro n acc
    rw [Nat.toDigitsCore]
    by_cases h10 : n / 10 = 0
    · simp [h10]
    · simp only [h10, if_false]
      calc acc.length ≤ (Nat.digitChar (n % 10) :: acc).length := by simp
        _ ≤ _ := ih (n / 10) _

/-- The decimal rendering of a natural number is nonempty. -/
theorem natRepr_data_ne_nil (n : Nat) : (Nat.repr n).data ≠ [] := by
  have h : (Nat.repr n).data = Nat.toDigitsCore 10 (n + 1) n [] := rfl
  rw [h, Nat.toDigitsCore]
  by_cases h10 : n / 10 = 0
  · simp [h10]
  · simp only [h10, if_false]
    intro hnil
    have := toDigitsCore_length n (n / 10) [Nat.digitChar (n % 10)]
    rw [hnil] at this
    simp at this


/-- A digit character is neither a comma nor a newline. -/
theorem isDigit_ne_sep {c : Char} (h : c.isDigit = true) : c ≠ ',' ∧ c ≠ '\n' := by
  constructor
  · intro hEq; rw [hEq] at h; exact absurd h (by decide)
  · intro hEq; rw [hEq] at h; exact absurd h (by decide)

/-- The decimal rendering of a natural number is a valid separator-free field. -/
theorem natRepr_sepFree (n : Nat) : sepFreeField (Nat.repr n) := by
  constructor
  · intro hEq
    exact natRepr_data_ne_nil n (by rw [hEq])
  · intro c hc
    exact isDigit_ne_sep (natRepr_isDigit n c hc)

/-- The decimal rendering of any integer (possibly with a leading minus sign) is a valid separator-free field. -/
theorem intToString_sepFree (i : Int) : sepFreeField (toString i) := by
  cases i with
  | ofNat m => exact natRepr_sepFree m
  | negSucc m =>
    have hdata : (toString (Int.negSucc m)).data = '-' :: (Nat.repr (m + 1)).data := rfl
    constructor
    · intro hEq
      have : (toString (Int.negSucc m)).data = [] := by rw [hEq]
      rw [hdata] at this
      exact List.cons_ne_nil _ _ this
    · intro c hc
      rw [hdata] at hc
      rcases List.mem_cons.mp hc with hc | hc
      · subst hc; exact ⟨by decide, by decide⟩
      · exact isDigit_ne_sep (natRepr_isDigit (m + 1) c hc)

/-- Every string built by the four-field print sequence is a four-field line. -/
theorem controlLine_isFourFieldLine (f x y w : Int) : isFourFieldLine (controlLine f x y w) :=
  ⟨toString f, toString x, toString y, toString w, rfl,
    intToString_sepFree f, intToString_sepFree x, intToString_sepFree y, intToString_sepFree w⟩

/-- Every string built by the three-field print sequence is a three-field line. -/
theorem potControlLine_isThreeFieldLine (f p w : Int) :
    isThreeFieldLine (potControlLine f p w) :=
  ⟨toString f, toString p, toString w, rfl,
    intToString_sepFree f, intToString_sepFree p, intToString_sepFree w⟩

/-- A separator-free field contains no comma. -/
theorem sepFreeField_count_comma {f : String} (h : sepFreeField f) :
    f.data.count ',' = 0 :=
  List.count_eq_zero.mpr (fun hmem => (h.2 ',' hmem).1 rfl)

/-- A four-field line contains exactly three commas. -/
theorem isFourFieldLine_count_comma {l : String} (h : isFourFieldLine l) :
    l.data.count ',' = 3 := by
  obtain ⟨f, x, y, w, hEq, hf, hx, hy, hw⟩ := h
  subst hEq
  simp [List.count_append, sepFreeField_count_comma, hf, hx, hy, hw]

/-- A concrete quiescent input: button HIGH, axes 512/300, `millis() = 25`. -/
def oscIn0 : OscInput :=
  { joyButton := true, xBtn := 0, yBtn := 0, xValue := 512, yValue := 300, millisNow := 25 }

/-- A concrete button-press input: button LOW at `millis() = 0`. -/
def oscBtnIn : OscInput :=
  { joyButton := false, xBtn := 10, yBtn := 20, xValue := 512, yValue := 300, millisNow := 0 }

/-- A concrete quiescent input for the legacy sketch. -/
def potIn0 : PotInput :=
  { button := true, potBtn := 0, potValue := 512, millisNow := 25 }

/-- Every serial line one `loop` iteration of `OscilloscopeControl.ino` emits, on either transmission path, is built by the four-field print sequence. -/
theorem oscLoop_lines_shape (s : OscState) (i : OscInput) :
    ∀ l ∈ (oscLoop s i).lines, ∃ f x y w : Int, l = controlLine f x y w := by
  intro l hl
  simp only [oscLoop] at hl
  rcases List.mem_append.mp hl with h | h <;> split at h <;>
    first
      | exact absurd h (List.not_mem_nil l)
      | exact ⟨_, _, _, _, List.mem_singleton.mp h⟩

/-- Every serial line one `loop` iteration of the legacy sketch emits, on either transmission path, is built by the three-field print sequence. -/
theorem potLoop_lines_shape (s : PotState) (i : PotInput) :
    ∀ l ∈ (potLoop s i).lines, ∃ f p w : Int, l = potControlLine f p w := by
  intro l hl
  simp only [potLoop] at hl
  rcases List.mem_append.mp hl with h | h <;> split at h <;>
    first
      | exact absurd h (List.not_mem_nil l)
      | exact ⟨_, _, _, List.mem_singleton.mp h⟩

/-- Claim C1 (amended): every control line `OscilloscopeControl.ino` transmits,
on both the periodic path and the immediate button-press path, is an ASCII
comma-separated line of exactly four fields terminated by a newline; the
legacy sketch in the repository instead transmits three-field lines
`frequency,pot,waveform` on both of its paths. -/
theorem c1_transmitted_lines (s : OscState) (i : OscInput) (t : PotState) (j : PotInput) :
    (∀ l ∈ (oscLoop s i).lines, isFourFieldLine l) ∧
    (∀ l ∈ (potLoop t j).lines, isThreeFieldLine l) := by
  constructor
  · intro l hl
    obtain ⟨f, x, y, w, hEq⟩ := oscLoop_lines_shape s i l hl
    exact hEq ▸ controlLine_isFourFieldLine f x y w
  · intro l hl
    obtain ⟨f, p, w, hEq⟩ := potLoop_lines_shape t j l hl
    exact hEq ▸ potControlLine_isThreeFieldLine f p w

/-- Witness for C1: the periodic line sent from the initial state is a concrete four-field line. -/
theorem c1_transmitted_lines_witness : isFourFieldLine "100,512,300,0\n" :=
  (c1_transmitted_lines oscInit oscIn0 potInit potIn0).1 "100,512,300,0\n" (by decide)

/-- Counterexample for C1 as stated: the legacy sketch (a firmware source of
this repository, cited by the claim) emits, on its periodic path, the line
`100,512,0\n`, which is not a four-field line: it has two commas, not
three. -/
theorem c1_counterexample :
    (potLoop potInit potIn0).lines = ["100,512,0\n"] ∧ ¬ isFourFieldLine "100,512,0\n" := by
  refine ⟨by decide, fun h => ?_⟩
  have h3 := isFourFieldLine_count_comma h
  have h2 : ("100,512,0\n").data.count ',' = 2 := by decide
  rw [h2] at h3
  exact absurd h3 (by decide)

/-- The firmware's `map(x, 0, 1023, 2, 100)` call computed over naturals. -/
theorem arduinoMap_nat (x : Nat) :
    arduinoMap (x : Int) 0 1023 2 100 = ((x * 98 / 1023 : Nat) : Int) + 2 := by
  unfold arduinoMap
  have h1 : ((x : Int) - 0) * (100 - 2) = ((x * 98 : Nat) : Int) := by push_cast; ring
  rw [h1]
  have h2 : ((1023 : Int) - 0) = ((1023 : Nat) : Int) := by norm_num
  rw [h2, Int.tdiv_eq_ediv (by positivity) (by norm_num)]
  rw [← Int.ofNat_ediv]

/-- For an ADC reading in `[0, 1023]`, the mapped sweep speed lies in `[2, 100]`. -/
theorem sweep_bounds (x : Nat) (hx : x ≤ 1023) :
    2 ≤ arduinoMap (x : Int) 0 1023 2 100 ∧ arduinoMap (x : Int) 0 1023 2 100 ≤ 100 := by
  rw [arduinoMap_nat]
  have h : x * 98 / 1023 ≤ 98 := by
    have : x * 98 ≤ 1023 * 98 := by omega
    calc x * 98 / 1023 ≤ 1023 * 98 / 1023 := Nat.div_le_div_right this
      _ = 98 := by norm_num
  omega

/-- The mapped sweep speed is at least 2 for every natural ADC reading. -/
theorem sweep_lb (x : Nat) : 2 ≤ arduinoMap (x : Int) 0 1023 2 100 := by
  rw [arduinoMap_nat]
  omega

/-- The `freq` update of one `loop` iteration: add the mapped sweep speed, wrap to 100 when the result exceeds 2000. -/
theorem oscLoop_freq (s : OscState) (i : OscInput) :
    (oscLoop s i).state.freq =
      if s.freq + arduinoMap (i.xValue : Int) 0 1023 2 100 > 2000 then 100
      else s.freq + arduinoMap (i.xValue : Int) 0 1023 2 100 := rfl

/-- The `waveformType` update of one `loop` iteration: advance by one modulo 8 exactly on a falling button edge. -/
theorem oscLoop_waveform (s : OscState) (i : OscInput) :
    (oscLoop s i).state.waveformType =
      if i.joyButton = false ∧ s.lastJoyButtonState = true
      then (s.waveformType + 1).tmod 8 else s.waveformType := rfl

/-- Invariant: in every reachable state `freq` lies in `[100, 2000]`. -/
theorem oscReachable_freq_bounds {s : OscState} (h : OscReachable s) :
    100 ≤ s.freq ∧ s.freq ≤ 2000 := by
  induction h with
  | init => constructor <;> norm_num [oscInit]
  | step i hs ih =>
    rename_i s'
    rw [oscLoop_freq]
    have h2 := sweep_lb i.xValue
    split <;> omega

/-- Invariant: in every reachable state `waveformType` lies in `{0..7}`. -/
theorem oscReachable_waveform_bounds {s : OscState} (h : OscReachable s) :
    0 ≤ s.waveformType ∧ s.waveformType ≤ 7 := by
  induction h with
  | init => constructor <;> norm_num [oscInit]
  | step i hs ih =>
    rename_i s'
    rw [oscLoop_waveform]
    split
    · rw [Int.tmod_eq_emod (by omega) (by norm_num)]
      have h1 := Int.emod_nonneg (s'.waveformType + 1) (b := 8) (by norm_num)
      have h2 := Int.emod_lt_of_pos (s'.waveformType + 1) (b := 8) (by norm_num)
      omega
    · exact ih

/-- Claim C2: in every reachable state of `OscilloscopeControl.ino` the
transmitted `freq` lies in `[100, 2000]`; it starts at 100, and each
iteration adds the mapped sweep step, resetting to 100 (before the next
transmission) exactly when the incremented value exceeds 2000. -/
theorem c2_freq_invariant (s : OscState) (h : OscReachable s) :
    (100 ≤ s.freq ∧ s.freq ≤ 2000) ∧ oscInit.freq = 100 ∧
    ∀ i : OscInput,
      (oscLoop s i).state.freq =
        if s.freq + arduinoMap (i.xValue : Int) 0 1023 2 100 > 2000 then 100
        else s.freq + arduinoMap (i.xValue : Int) 0 1023 2 100 :=
  ⟨oscReachable_freq_bounds h, rfl, fun i => oscLoop_freq s i⟩

/-- Witness for C2 at the initial state and a concrete input. -/
theorem c2_freq_invariant_witness :
    (100 ≤ oscInit.freq ∧ oscInit.freq ≤ 2000) ∧
    (oscLoop oscInit oscIn0).state.freq =
      if oscInit.freq + arduinoMap (oscIn0.xValue : Int) 0 1023 2 100 > 2000 then 100
      else oscInit.freq + arduinoMap (oscIn0.xValue : Int) 0 1023 2 100 :=
  ⟨(c2_freq_invariant oscInit OscReachable.init).1,
   (c2_freq_invariant oscInit OscReachable.init).2.2 oscIn0⟩

/-- Claim C3: the waveform selector starts at 0 and stays in `{0..7}` in
every reachable state; a falling button edge advances it by exactly one
modulo 8 and no other step changes it, so every transmitted waveform value
(the post-update selector) is in `{0..7}`. -/
theorem c3_waveform_selector (s : OscState) (h : OscReachable s) :
    (0 ≤ s.waveformType ∧ s.waveformType ≤ 7) ∧ oscInit.waveformType = 0 ∧
    (∀ i : OscInput,
      (oscLoop s i).state.waveformType =
        if i.joyButton = false ∧ s.lastJoyButtonState = true
        then (s.waveformType + 1).tmod 8 else s.waveformType) ∧
    ∀ i : OscInput,
      0 ≤ (oscLoop s i).state.waveformType ∧ (oscLoop s i).state.waveformType ≤ 7 :=
  ⟨oscReachable_waveform_bounds h, rfl, fun i => oscLoop_waveform s i,
   fun i => oscReachable_waveform_bounds (OscReachable.step i h)⟩

/-- Witness for C3 at the initial state and a concrete button press. -/
theorem c3_waveform_selector_witness :
    (0 ≤ oscInit.waveformType ∧ oscInit.waveformType ≤ 7) ∧
    (oscLoop oscInit oscBtnIn).state.waveformType =
      (if oscBtnIn.joyButton = false ∧ oscInit.lastJoyButtonState = true
       then (oscInit.waveformType + 1).tmod 8 else oscInit.waveformType) ∧
    0 ≤ (oscLoop oscInit oscBtnIn).state.waveformType ∧
      (oscLoop oscInit oscBtnIn).state.waveformType ≤ 7 :=
  ⟨(c3_waveform_selector oscInit OscReachable.init).1,
   (c3_waveform_selector oscInit OscReachable.init).2.2.1 oscBtnIn,
   (c3_waveform_selector oscInit OscReachable.init).2.2.2 oscBtnIn⟩

/-- Claim C10: on a falling button edge (current read LOW, previous read
HIGH) the firmware increments the selector by one modulo 8 and immediately
emits one control line carrying the new waveform value, placed before any
periodic line of the same iteration; with no falling edge the selector is
unchanged and only the periodic path may emit. -/
theorem c10_button_edge (s : OscState) (i : OscInput) :
    ((i.joyButton = false ∧ s.lastJoyButtonState = true) →
      (oscLoop s i).state.waveformType = (s.waveformType + 1).tmod 8 ∧
      (oscLoop s i).lines =
        controlLine s.freq (i.xBtn : Int) (i.yBtn : Int) ((s.waveformType + 1).tmod 8) ::
          (if 20 ≤ ulongSub i.millisNow s.lastSendTime
           then [controlLine s.freq (i.xValue : Int) (i.yValue : Int) ((s.waveformType + 1).tmod 8)]
           else [])) ∧
    (¬(i.joyButton = false ∧ s.lastJoyButtonState = true) →
      (oscLoop s i).state.waveformType = s.waveformType ∧
      (oscLoop s i).lines =
        (if 20 ≤ ulongSub i.millisNow s.lastSendTime
         then [controlLine s.freq (i.xValue : Int) (i.yValue : Int) s.waveformType]
         else [])) := by
  constructor
  · intro hp
    simp only [oscLoop, hp.1, hp.2]
    norm_num
  · intro hp
    simp only [oscLoop]
    split_ifs with h1 <;> first | exact absurd h1 hp | simp

/-- Witness for C10: a concrete falling edge from the initial state. -/
theorem c10_button_edge_witness :
    (oscLoop oscInit oscBtnIn).state.waveformType = (oscInit.waveformType + 1).tmod 8 ∧
    (oscLoop oscInit oscBtnIn).lines =
      controlLine oscInit.freq (oscBtnIn.xBtn : Int) (oscBtnIn.yBtn : Int)
          ((oscInit.waveformType + 1).tmod 8) ::
        (if 20 ≤ ulongSub oscBtnIn.millisNow oscInit.lastSendTime
         then [controlLine oscInit.freq (oscBtnIn.xValue : Int) (oscBtnIn.yValue : Int)
             ((oscInit.waveformType + 1).tmod 8)]
         else []) :=
  (c10_button_edge oscInit oscBtnIn).1 ⟨rfl, rfl⟩

/-- Claim C9: for ADC readings in `[0, 1023]` the sweep step
`map(x, 0, 1023, 2, 100)` lies in `[2, 100]` and is monotone in the
reading; each iteration either wraps to 100 (when the incremented frequency
exceeds 2000) or strictly increases `freq` by between 2 and 100. -/
theorem c9_sweep_step (x y : Nat) (s : OscState) (i : OscInput)
    (hx : x ≤ 1023) (hxy : x ≤ y) (_hy : y ≤ 1023) (hi : i.xValue ≤ 1023) :
    (2 ≤ arduinoMap (x : Int) 0 1023 2 100 ∧ arduinoMap (x : Int) 0 1023 2 100 ≤ 100) ∧
    arduinoMap (x : Int) 0 1023 2 100 ≤ arduinoMap (y : Int) 0 1023 2 100 ∧
    ((2000 < s.freq + arduinoMap (i.xValue : Int) 0 1023 2 100 ∧
        (oscLoop s i).state.freq = 100) ∨
      (s.freq + 2 ≤ (oscLoop s i).state.freq ∧ (oscLoop s i).state.freq ≤ s.freq + 100)) := by
  refine ⟨sweep_bounds x hx, ?_, ?_⟩
  · rw [arduinoMap_nat, arduinoMap_nat]
    have : x * 98 / 1023 ≤ y * 98 / 1023 := Nat.div_le_div_right (by omega)
    omega
  · have hb := sweep_bounds i.xValue hi
    rw [oscLoop_freq]
    split
    · rename_i hgt
      exact Or.inl ⟨hgt, rfl⟩
    · exact Or.inr ⟨by omega, by omega⟩

/-- Witness for C9 at concrete readings 0 and 1023 and the initial state. -/
theorem c9_sweep_step_witness :
    (2 ≤ arduinoMap ((0 : Nat) : Int) 0 1023 2 100 ∧
      arduinoMap ((0 : Nat) : Int) 0 1023 2 100 ≤ 100) ∧
    arduinoMap ((0 : Nat) : Int) 0 1023 2 100 ≤ arduinoMap ((1023 : Nat) : Int) 0 1023 2 100 ∧
    ((2000 < oscInit.freq + arduinoMap (oscIn0.xValue : Int) 0 1023 2 100 ∧
        (oscLoop oscInit oscIn0).state.freq = 100) ∨
      (oscInit.freq + 2 ≤ (oscLoop oscInit oscIn0).state.freq ∧
        (oscLoop oscInit oscIn0).state.freq ≤ oscInit.freq + 100)) :=
  c9_sweep_step 0 1023 oscInit oscIn0 (by decide) (by decide) (by decide) (by decide)

/-- Without wrap-around, `unsigned long` subtraction is plain subtraction. -/
theorem ulongSub_of_le {a b : Nat} (hba : b ≤ a) (ha : a < ulModulus) :
    ulongSub a b = a - b := by
  have h : ulModulus = 4294967296 := rfl
  unfold ulongSub
  rw [h] at ha ⊢
  omega

/-- `lastSendTime` is updated to the current `millis()` exactly when the periodic branch fires. -/
theorem oscLoop_lastSendTime (s : OscState) (i : OscInput) :
    (oscLoop s i).state.lastSendTime =
      if 20 ≤ ulongSub i.millisNow s.lastSendTime then i.millisNow else s.lastSendTime := rfl

/-- Along any run with nondecreasing, non-wrapping `millis()` readings,
consecutive periodic transmissions (anchored at the incoming
`lastSendTime`) are at least 20 ms apart. -/
theorem periodicSendTimes_chain (is : List OscInput) : ∀ s : OscState,
    s.lastSendTime < ulModulus →
    List.Chain (· ≤ ·) s.lastSendTime (is.map OscInput.millisNow) →
    (∀ t ∈ is.map OscInput.millisNow, t < ulModulus) →
    List.Chain (fun a b => a + 20 ≤ b) s.lastSendTime (periodicSendTimes s is) := by
  induction is with
  | nil => intro s _ _ _; exact List.Chain.nil
  | cons i is ih =>
    intro s hs hchain hbound
    rw [List.map_cons, List.chain_cons] at hchain
    obtain ⟨hle, hchain2⟩ := hchain
    have hi : i.millisNow < ulModulus := hbound _ (by simp)
    have hbound2 : ∀ t ∈ is.map OscInput.millisNow, t < ulModulus := by
      intro t ht; exact hbound t (by simp [ht])
    rw [periodicSendTimes]
    have hsub : ulongSub i.millisNow s.lastSendTime = i.millisNow - s.lastSendTime :=
      ulongSub_of_le hle hi
    split
    · rename_i hsend
      rw [List.chain_cons]
      constructor
      · rw [hsub] at hsend; omega
      · have hlast : (oscLoop s i).state.lastSendTime = i.millisNow := by
          rw [oscLoop_lastSendTime, if_pos hsend]
        have := ih (oscLoop s i).state (by rw [hlast]; exact hi)
          (by rw [hlast]; exact hchain2) hbound2
        rw [hlast] at this
        exact this
    · rename_i hsend
      have hlast : (oscLoop s i).state.lastSendTime = s.lastSendTime := by
        rw [oscLoop_lastSendTime, if_neg hsend]
      have hchain3 : List.Chain (· ≤ ·) s.lastSendTime (is.map OscInput.millisNow) := by
        cases hc : is.map OscInput.millisNow with
        | nil => exact List.Chain.nil
        | cons t ts =>
          rw [hc, List.chain_cons] at hchain2
          exact List.chain_cons.mpr ⟨le_trans hle hchain2.1, hchain2.2⟩
      have := ih (oscLoop s i).state (by rw [hlast]; exact hs)
        (by rw [hlast]; exact hchain3) hbound2
      rw [hlast] at this
      exact this

/-- A list of timestamps pairwise at least 20 apart and contained in a window of width `W` has at most `(W + 19) / 20` elements. -/
theorem gap_pairwise_window_length : ∀ (l : List Nat) (t W : Nat),
    List.Pairwise (fun a b => a + 20 ≤ b) l →
    (∀ x ∈ l, t ≤ x ∧ x < t + W) →
    20 * l.length ≤ W + 19 := by
  intro l
  induction l with
  | nil => intro t W _ _; simp
  | cons a rest ih =>
    intro t W hpw hmem
    rw [List.pairwise_cons] at hpw
    obtain ⟨hgap, hpw2⟩ := hpw
    have ha := hmem a (by simp)
    cases rest with
    | nil => simp; omega
    | cons b rs =>
      have hb := hmem b (by simp)
      have hab : a + 20 ≤ b := hgap b (by simp)
      have hW : 20 ≤ W := by omega
      have := ih (a + 20) (W - 20) hpw2 ?_
      · simp only [List.length_cons] at this ⊢
        omega
      · intro x hx
        have hxg : a + 20 ≤ x := hgap x hx
        have hxm := hmem x (by simp [hx])
        omega

/-- A chain of timestamps with step gaps of at least 20 is pairwise at least 20 apart. -/
theorem chain_gap_pairwise {a : Nat} {l : List Nat}
    (h : List.Chain (fun u v => u + 20 ≤ v) a l) :
    List.Pairwise (fun u v => u + 20 ≤ v) (a :: l) := by
  haveI : IsTrans Nat (fun u v => u + 20 ≤ v) := ⟨fun _ _ _ h1 h2 => by omega⟩
  exact List.chain_iff_pairwise.mp h

/-- Claim C7: under monotone, non-wrapping `millis()` readings the firmware
fires the periodic transmission only when at least 20 ms (`sendInterval`)
have elapsed since the previous periodic transmission, and consequently any
1000 ms window contains at most 50 periodic transmissions. -/
theorem c7_periodic_rate (s : OscState) (is : List OscInput)
    (h1 : s.lastSendTime < ulModulus)
    (h2 : List.Chain (· ≤ ·) s.lastSendTime (is.map OscInput.millisNow))
    (h3 : ∀ t ∈ is.map OscInput.millisNow, t < ulModulus) :
    List.Chain (fun a b => a + 20 ≤ b) s.lastSendTime (periodicSendTimes s is) ∧
    ∀ t : Nat,
      ((periodicSendTimes s is).filter
        (fun x => decide (t ≤ x) && decide (x < t + 1000))).length ≤ 50 := by
  have hchain := periodicSendTimes_chain is s h1 h2 h3
  refine ⟨hchain, fun t => ?_⟩
  have hpw : List.Pairwise (fun u v => u + 20 ≤ v) (periodicSendTimes s is) :=
    (chain_gap_pairwise hchain).of_cons
  have hpwf : List.Pairwise (fun u v => u + 20 ≤ v)
      ((periodicSendTimes s is).filter (fun x => decide (t ≤ x) && decide (x < t + 1000))) :=
    hpw.filter _
  have hmem : ∀ x ∈ (periodicSendTimes s is).filter
      (fun x => decide (t ≤ x) && decide (x < t + 1000)), t ≤ x ∧ x < t + 1000 := by
    intro x hx
    have := List.mem_filter.mp hx
    simpa using this.2
  have := gap_pairwise_window_length _ t 1000 hpwf hmem
  omega

/-- First input of the concrete rate-limit run, at `millis() = 25`. -/
def win1 : OscInput :=
  { joyButton := true, xBtn := 0, yBtn := 0, xValue := 512, yValue := 300, millisNow := 25 }

/-- Second input of the concrete rate-limit run, at `millis() = 30`. -/
def win2 : OscInput :=
  { joyButton := true, xBtn := 0, yBtn := 0, xValue := 512, yValue := 300, millisNow := 30 }

/-- Witness for C7 on a concrete two-step run. -/
theorem c7_periodic_rate_witness :
    List.Chain (fun a b => a + 20 ≤ b) oscInit.lastSendTime
      (periodicSendTimes oscInit [win1, win2]) ∧
    ((periodicSendTimes oscInit [win1, win2]).filter
      (fun x => decide (0 ≤ x) && decide (x < 0 + 1000))).length ≤ 50 :=
  ⟨(c7_periodic_rate oscInit [win1, win2] (by decide)
      (by simp [oscInit, win1, win2, List.chain_cons]) (by decide)).1,
   (c7_periodic_rate oscInit [win1, win2] (by decide)
      (by simp [oscInit, win1, win2, List.chain_cons]) (by decide)).2 0⟩

/-- Closed form of the iterated smoother: exponential approach with ratio 19/20. -/
theorem smoothIter_closed_form (target c : ℚ) : ∀ n : Nat,
    smoothIter target n c = target - (target - c) * (19 / 20) ^ n := by
  intro n
  induction n generalizing c with
  | zero => simp [smoothIter]
  | succ m ih =>
    rw [smoothIter, ih]
    rw [show target - smoothStep target c = (target - c) * (19 / 20) by
      unfold smoothStep; ring]
    ring

/-- Claim C4: the smoother computes `current*0.95 + target*0.05` per sample,
and iterating from `current = 100` toward `target = 2000` for 20 samples
moves `current` by the fraction `1 - (19/20)^20` of the distance, which lies
between 63% and 65% (approximately 0.64). -/
theorem c4_smoother_convergence :
    (∀ target current : ℚ,
      smoothStep target current = current * (95 / 100) + target * (5 / 100)) ∧
    smoothIter 2000 20 100 = 2000 - (2000 - 100) * (19 / 20) ^ 20 ∧
    (63 : ℚ) / 100 * (2000 - 100) ≤ smoothIter 2000 20 100 - 100 ∧
    smoothIter 2000 20 100 - 100 ≤ (65 : ℚ) / 100 * (2000 - 100) := by
  refine ⟨fun _ _ => rfl, smoothIter_closed_form 2000 100 20, ?_, ?_⟩ <;>
    rw [smoothIter_closed_form 2000 100 20] <;> norm_num

/-- Claim C5: applying the malformed line `garbage\n` to any control state
leaves every field unchanged; the parser is total, so no error arises. -/
theorem c5_malformed_line_ignored (st : ControlState) :
    applyControlLine st "garbage\n" = st := by
  simp [applyControlLine, show parseControlLine "garbage\n" = none from by decide]

/-- Claim C6: applying the line `250,512,300,3\n` to any control state
yields exactly `\x7bfrequency := 250, axisX := 512, axisY := 300,
waveform := 3\x7d`. -/
theorem c6_wellformed_line_parsed (st : ControlState) :
    applyControlLine st "250,512,300,3\n" =
      { frequency := 250, axisX := 512, axisY := 300, waveform := 3 } := by
  simp [applyControlLine,
    show parseControlLine "250,512,300,3\n" =
      some { frequency := 250, axisX := 512, axisY := 300, waveform := 3 } from by decide]

/-- Claim C8: for every frequency in `[100, 2000]` and every elapsed sample
count, the phase accumulator — re-wrapped after each per-sample increment —
stays in the canonical domain `[0, 1)`. -/
theorem c8_phase_in_domain (f p : ℚ) (n : Nat)
    (_hf1 : 100 ≤ f) (_hf2 : f ≤ 2000) (hp0 : 0 ≤ p) (hp1 : p < 1) :
    0 ≤ phaseIter f n p ∧ phaseIter f n p < 1 := by
  induction n generalizing p with
  | zero => exact ⟨hp0, hp1⟩
  | succ m ih =>
    rw [phaseIter]
    exact ih _ (Int.fract_nonneg _) (Int.fract_lt_one _)

/-- Witness for C8 at frequency 440, three samples, initial phase 0. -/
theorem c8_phase_in_domain_witness :
    (100 : ℚ) ≤ 440 ∧ (440 : ℚ) ≤ 2000 ∧ (0 : ℚ) ≤ 0 ∧ (0 : ℚ) < 1 ∧
    (0 ≤ phaseIter 440 3 0 ∧ phaseIter 440 3 0 < 1) :=
  ⟨by norm_num, by norm_num, le_refl 0, by norm_num,
   c8_phase_in_domain 440 0 3 (by norm_num) (by norm_num) (le_refl 0) (by norm_num)⟩
